import Mathlib

/-!
Shallow embedding of the OSM PBF primitive-group decoder (`src/groups.rs`).

Modelling conventions:
  - machine integers (`i64`, `i32`) are `Int`; wrapping arithmetic is explicit
    via `wrap 64` / `wrap 32` (Rust release-mode two's-complement semantics);
  - Rust panics (out-of-range string-table index, short dense-metadata columns)
    are `Option.none`: a fatal error aborting the whole iteration;
  - iterators are decoded eagerly into `List`s; laziness is irrelevant to the
    values produced;
  - decoded strings are lists of Unicode scalar values (`Str := List Nat`),
    produced from the byte-level string table by a faithful model of lossy
    UTF-8 decoding (`String::from_utf8_lossy`).
-/

namespace Osm

/-- Two's-complement wrap of an unbounded integer into the signed `w`-bit range. -/
def wrap (w : Nat) (x : Int) : Int :=
  (x + 2 ^ (w - 1)) % 2 ^ w - 2 ^ (w - 1)

/-- Rust `v as usize` for a value held in an `i32`, after the implicit
sign-extension to the 64-bit machine word: negative values become huge indices. -/
def usizeOfI32 (v : Int) : Nat :=
  (v % 2 ^ 64).toNat

/-- Decoded text: a list of Unicode scalar values. -/
abbrev Str := List Nat

/-- Valid second byte of a multi-byte UTF-8 sequence headed by `b0`
(the leading-byte-dependent ranges exclude overlongs and surrogates). -/
def validB1 (b0 b1 : Nat) : Prop :=
  if b0 = 0xE0 then 0xA0 ≤ b1 ∧ b1 < 0xC0
  else if b0 = 0xED then 0x80 ≤ b1 ∧ b1 < 0xA0
  else if b0 = 0xF0 then 0x90 ≤ b1 ∧ b1 < 0xC0
  else if b0 = 0xF4 then 0x80 ≤ b1 ∧ b1 < 0x90
  else 0x80 ≤ b1 ∧ b1 < 0xC0

instance (b0 b1 : Nat) : Decidable (validB1 b0 b1) := by
  unfold validB1; infer_instance

/-- Model of Rust `String::from_utf8_lossy`: decode a byte list to scalar
values, substituting U+FFFD for each maximal invalid subpart (per-byte skip for
an invalid leading byte or an invalid byte after a valid prefix, one
substitution for a truncated tail). Total: decoding never fails. -/
def utf8DecodeLossy : List Nat → List Nat
  | [] => []
  | b0 :: rest =>
    if b0 < 0x80 then b0 :: utf8DecodeLossy rest
    else if b0 < 0xC2 then 0xFFFD :: utf8DecodeLossy rest
    else if b0 < 0xE0 then
      match rest with
      | [] => [0xFFFD]
      | b1 :: rest2 =>
        if 0x80 ≤ b1 ∧ b1 < 0xC0 then
          ((b0 - 0xC0) * 64 + (b1 - 0x80)) :: utf8DecodeLossy rest2
        else 0xFFFD :: utf8DecodeLossy (b1 :: rest2)
    else if b0 < 0xF0 then
      match rest with
      | [] => [0xFFFD]
      | b1 :: rest2 =>
        if validB1 b0 b1 then
          match rest2 with
          | [] => [0xFFFD]
          | b2 :: rest3 =>
            if 0x80 ≤ b2 ∧ b2 < 0xC0 then
              ((b0 - 0xE0) * 4096 + (b1 - 0x80) * 64 + (b2 - 0x80)) ::
                utf8DecodeLossy rest3
            else 0xFFFD :: utf8DecodeLossy (b2 :: rest3)
        else 0xFFFD :: utf8DecodeLossy (b1 :: rest2)
    else if b0 < 0xF5 then
      match rest with
      | [] => [0xFFFD]
      | b1 :: rest2 =>
        if validB1 b0 b1 then
          match rest2 with
          | [] => [0xFFFD]
          | b2 :: rest3 =>
            if 0x80 ≤ b2 ∧ b2 < 0xC0 then
              match rest3 with
              | [] => [0xFFFD]
              | b3 :: rest4 =>
                if 0x80 ≤ b3 ∧ b3 < 0xC0 then
                  ((b0 - 0xF0) * 262144 + (b1 - 0x80) * 4096 + (b2 - 0x80) * 64 +
                      (b3 - 0x80)) :: utf8DecodeLossy rest4
                else 0xFFFD :: utf8DecodeLossy (b3 :: rest4)
            else 0xFFFD :: utf8DecodeLossy (b2 :: rest3)
        else 0xFFFD :: utf8DecodeLossy (b1 :: rest2)
    else 0xFFFD :: utf8DecodeLossy rest

/-- Standard UTF-8 encoding of one Unicode scalar value. -/
def utf8EncodeChar (v : Nat) : List Nat :=
  if v < 0x80 then [v]
  else if v < 0x800 then [0xC0 + v / 64, 0x80 + v % 64]
  else if v < 0x10000 then [0xE0 + v / 4096, 0x80 + v / 64 % 64, 0x80 + v % 64]
  else [0xF0 + v / 262144, 0x80 + v / 4096 % 64, 0x80 + v / 64 % 64, 0x80 + v % 64]

/-- Standard UTF-8 encoding of a list of Unicode scalar values. -/
def utf8Encode (vs : List Nat) : List Nat :=
  vs.foldr (fun v acc => utf8EncodeChar v ++ acc) []

/-- A Unicode scalar value: any code point except the surrogate range. -/
def ValidScalar (v : Nat) : Prop :=
  v < 0xD800 ∨ (0xE000 ≤ v ∧ v < 0x110000)

instance (v : Nat) : Decidable (ValidScalar v) := by
  unfold ValidScalar; infer_instance

/-- The per-block decode context: string table (raw byte strings), coordinate
granularity (an `i32` on the wire) and the two coordinate offsets (`i64`). -/
structure Block where
  stringtable : List (List Nat)
  granularity : Int
  lat_offset : Int
  lon_offset : Int
deriving DecidableEq

/-- `make_string` from the source: index into the block string table (an
out-of-range index is a Rust slice-index panic, modelled as `none`), then
lossy UTF-8 decoding of the entry's bytes. -/
def make_string (k : Nat) (b : Block) : Option Str :=
  (b.stringtable.get? k).map utf8DecodeLossy

/-- `make_lat` from the source: `((lat_offset + granularity * c) / 100) as i32`
with `i64` wrapping arithmetic, `i64` division truncating toward zero
(`Int.tdiv`), and a final wrapping narrowing to `i32`. -/
def make_lat (c : Int) (b : Block) : Int :=
  wrap 32 (Int.tdiv (wrap 64 (b.lat_offset + wrap 64 (b.granularity * c))) 100)

/-- `make_lon` from the source, same formula with the longitude offset. -/
def make_lon (c : Int) (b : Block) : Int :=
  wrap 32 (Int.tdiv (wrap 64 (b.lon_offset + wrap 64 (b.granularity * c))) 100)

/-- Decoded tag mapping: association list with unique keys, insertion order. -/
abbrev Tags := List (Str × Str)

/-- Map insertion with overwrite-on-duplicate-key (the `FlatMap::insert`
behaviour of the `Tags` container). -/
def tagsInsert (t : Tags) (k v : Str) : Tags :=
  if t.any (fun p => p.1 == k) then
    t.map (fun p => if p.1 == k then (k, v) else p)
  else t ++ [(k, v)]

/-- `make_tags` from the source: zip the parallel key/value index arrays
(truncating to the shorter), resolve each index pair through the string table
and insert in order. A failed string lookup aborts (`none`). -/
def make_tags (keys vals : List Nat) (b : Block) : Option Tags :=
  (keys.zip vals).foldlM
    (fun t kv => do
      let k ← make_string kv.1 b
      let v ← make_string kv.2 b
      pure (tagsInsert t k v))
    []

/-- Decoded per-entity metadata: six independently optional fields. -/
structure Info where
  version : Option Int
  timestamp : Option Int
  changeset : Option Int
  uid : Option Int
  user : Option Str
  visible : Option Bool
deriving DecidableEq

/-- The all-absent metadata value. -/
def Info.empty : Info :=
  ⟨none, none, none, none, none, none⟩

/-- Raw sparse `Info` sub-message: each wire field independently optional
(`has_*` flags of the protobuf message). -/
structure RawInfo where
  version : Option Int
  timestamp : Option Int
  changeset : Option Int
  uid : Option Int
  user_sid : Option Nat
  visible : Option Bool
deriving DecidableEq

/-- `make_info` from the source: copy each present field; a present
`user_sid` is resolved through the string table (lookup panic aborts). -/
def make_info (i : RawInfo) (b : Block) : Option Info :=
  match i.user_sid with
  | some sid =>
    match make_string sid b with
    | none => none
    | some u => some ⟨i.version, i.timestamp, i.changeset, i.uid, some u, i.visible⟩
  | none => some ⟨i.version, i.timestamp, i.changeset, i.uid, none, i.visible⟩

/-- The `info` handling shared by sparse nodes, ways and relations: decode the
sub-message if present, else the all-absent metadata value. -/
def maybeInfo (oi : Option RawInfo) (b : Block) : Option Info :=
  match oi with
  | some i => make_info i b
  | none => some Info.empty

/-- Decoded point feature. -/
structure Node where
  id : Int
  decimicro_lat : Int
  decimicro_lon : Int
  tags : Tags
  info : Info
deriving DecidableEq

/-- Raw sparse node: direct (non-delta) id and raw coordinates, parallel
key/value index arrays, optional metadata sub-message. -/
structure RawNode where
  id : Int
  lat : Int
  lon : Int
  keys : List Nat
  vals : List Nat
  info : Option RawInfo
deriving DecidableEq

/-- One step of `SimpleNodes::next`: decode a sparse node. -/
def decodeRawNode (b : Block) (n : RawNode) : Option Node :=
  match make_tags n.keys n.vals b with
  | none => none
  | some tags =>
    match maybeInfo n.info b with
    | none => none
    | some info => some ⟨n.id, make_lat n.lat b, make_lon n.lon b, tags, info⟩

/-- The sparse-node iterator of the group, decoded to a list. -/
def simple_nodes (g_nodes : List RawNode) (b : Block) : Option (List Node) :=
  g_nodes.mapM (decodeRawNode b)

/-- Cumulative delta decoding with a running `i64` total starting at `n`. -/
def deltaDecodeFrom (n : Int) : List Int → List Int
  | [] => []
  | d :: ds => wrap 64 (n + d) :: deltaDecodeFrom (wrap 64 (n + d)) ds

/-- Cumulative delta decoding with the running total initialized to zero. -/
def deltaDecode (ds : List Int) : List Int :=
  deltaDecodeFrom 0 ds

/-- Decoded line feature. -/
structure Way where
  id : Int
  nodes : List Int
  tags : Tags
  info : Info
deriving DecidableEq

/-- Raw way: id, node-reference deltas, parallel key/value index arrays,
optional metadata sub-message. -/
structure RawWay where
  id : Int
  refs : List Int
  keys : List Nat
  vals : List Nat
  info : Option RawInfo
deriving DecidableEq

/-- One step of `Ways::next`: delta-decode the node references from a running
total reset to zero, then tags and metadata. -/
def decodeRawWay (b : Block) (w : RawWay) : Option Way :=
  match make_tags w.keys w.vals b with
  | none => none
  | some tags =>
    match maybeInfo w.info b with
    | none => none
    | some info => some ⟨w.id, deltaDecode w.refs, tags, info⟩

/-- The way iterator of the group, decoded to a list. -/
def ways (g_ways : List RawWay) (b : Block) : Option (List Way) :=
  g_ways.mapM (decodeRawWay b)

/-- The closed member-type enumeration (`Relation_MemberType`). -/
inductive MemberType where
  | node
  | way
  | relation
deriving DecidableEq

/-- Tagged member reference: one of exactly three kinds, carrying the id. -/
inductive Member where
  | node (id : Int)
  | way (id : Int)
  | relation (id : Int)
deriving DecidableEq

/-- The `match t` of `Relations::next`: classify a member id by its type tag. -/
def memberOf : MemberType → Int → Member
  | MemberType.node, m => Member.node m
  | MemberType.way, m => Member.way m
  | MemberType.relation, m => Member.relation m

/-- The id carried by a member reference. -/
def Member.mid : Member → Int
  | Member.node m => m
  | Member.way m => m
  | Member.relation m => m

/-- The kind tag of a member reference. -/
def Member.kind : Member → MemberType
  | Member.node _ => MemberType.node
  | Member.way _ => MemberType.way
  | Member.relation _ => MemberType.relation

/-- Modelled from the spec: the wire-level decoding of the relation member-type
enumeration happens in the generated protobuf bindings, which are not part of
the decoder source under verification. Per the spec, the three enumerated wire
values 0, 1, 2 denote point feature, line feature, and relation; any other
wire value is a fatal decode error. -/
def parseMemberType : Nat → Option MemberType
  | 0 => some MemberType.node
  | 1 => some MemberType.way
  | 2 => some MemberType.relation
  | _ => none

/-- One decoded relation member: tagged reference plus resolved role text. -/
structure Ref where
  member : Member
  role : Str
deriving DecidableEq

/-- Decoded relation. -/
structure Relation where
  id : Int
  refs : List Ref
  tags : Tags
  info : Info
deriving DecidableEq

/-- Raw relation: id, member-id deltas, member types, member-role string
indices, parallel key/value index arrays, optional metadata sub-message. -/
structure RawRelation where
  id : Int
  memids : List Int
  types : List MemberType
  roles_sid : List Int
  keys : List Nat
  vals : List Nat
  info : Option RawInfo
deriving DecidableEq

/-- The member map of `Relations::next`: walk the zipped triples in lockstep,
delta-accumulating the member id (`i64` running total), classifying by type
tag and resolving the role string (lookup panic aborts). -/
def decodeRefs (b : Block) : Int → List (Int × MemberType × Int) → Option (List Ref)
  | _, [] => some []
  | m, (dm, t, role) :: rest =>
    match make_string (usizeOfI32 role) b with
    | none => none
    | some roleStr =>
      match decodeRefs b (wrap 64 (m + dm)) rest with
      | none => none
      | some tail => some (⟨memberOf t (wrap 64 (m + dm)), roleStr⟩ :: tail)

/-- One step of `Relations::next`: members (running total reset to zero, the
three member arrays zipped — truncating to the shortest), tags, metadata. -/
def decodeRawRelation (b : Block) (r : RawRelation) : Option Relation :=
  match decodeRefs b 0 (r.memids.zip (r.types.zip r.roles_sid)) with
  | none => none
  | some refs =>
    match make_tags r.keys r.vals b with
    | none => none
    | some tags =>
      match maybeInfo r.info b with
      | none => none
      | some info => some ⟨r.id, refs, tags, info⟩

/-- The relation iterator of the group, decoded to a list. -/
def relations (g_rels : List RawRelation) (b : Block) : Option (List Relation) :=
  g_rels.mapM (decodeRawRelation b)

/-- Raw dense metadata column bundle (`DenseInfo`). -/
structure DenseInfoData where
  version : List Int
  timestamp : List Int
  changeset : List Int
  uid : List Int
  user_sid : List Int
  visible : List Bool
deriving DecidableEq

/-- The mutable state of `DenseInfoIter`: four running totals and a cursor. -/
structure DIState where
  cur_timestamp : Int
  cur_changeset : Int
  cur_uid : Int
  cur_user_sid : Int
  place : Nat
deriving DecidableEq

/-- `DenseInfoIter::next`. With no dense metadata bundle it always yields the
all-absent metadata value, consuming nothing. With a bundle it stops when the
cursor reaches the end of the `version` column (`some none`); otherwise it
indexes all six columns at the cursor (a short column is a Rust index panic,
modelled as the outer `none`), advances the `i64` timestamp/changeset and
`i32` uid/user-sid running totals and resolves the user string. -/
def diStep (di : Option DenseInfoData) (b : Block) (st : DIState) :
    Option (Option (Info × DIState)) :=
  match di with
  | none => some (some (Info.empty, st))
  | some d =>
    if st.place = d.version.length then some none
    else
      (d.version.get? st.place).bind fun ver =>
      (d.timestamp.get? st.place).bind fun ts =>
      (d.changeset.get? st.place).bind fun cs =>
      (d.uid.get? st.place).bind fun ud =>
      (d.user_sid.get? st.place).bind fun us =>
      (d.visible.get? st.place).bind fun vis =>
      (make_string (usizeOfI32 (wrap 32 (st.cur_user_sid + us))) b).bind fun user =>
      some (some
        (⟨some ver, some (wrap 64 (st.cur_timestamp + ts)),
          some (wrap 64 (st.cur_changeset + cs)),
          some (wrap 32 (st.cur_uid + ud)), some user, some vis⟩,
         ⟨wrap 64 (st.cur_timestamp + ts), wrap 64 (st.cur_changeset + cs),
          wrap 32 (st.cur_uid + ud), wrap 32 (st.cur_user_sid + us),
          st.place + 1⟩))

/-- Raw dense node column bundle. -/
structure DenseData where
  id : List Int
  lat : List Int
  lon : List Int
  keys_vals : List Int
  denseinfo : Option DenseInfoData
deriving DecidableEq

/-- The tag-scanning loop of `DenseNodes::next`: read the shared interleaved
stream two at a time; a key index of `0` (or stream end) terminates the scan,
consuming the terminator and leaving the remainder for the next entity; a
stream ending after a key terminates without inserting. String-table lookup
panics abort. -/
def scanTags (b : Block) : Tags → List Int → Option (Tags × List Int)
  | t, [] => some (t, [])
  | t, k :: rest =>
    if k = 0 then some (t, rest)
    else
      match make_string (usizeOfI32 k) b with
      | none => none
      | some ks =>
        match rest with
        | [] => some (t, [])
        | v :: rest2 =>
          match make_string (usizeOfI32 v) b with
          | none => none
          | some vs => scanTags b (tagsInsert t ks vs) rest2

/-- `DenseNodes::next`, iterated: each step pops one id/lat/lon delta and one
metadata record; if any of the four sub-iterators is exhausted the stream
ends; otherwise the `i64` running totals advance, the tag stream is scanned to
its terminator, and one point feature is emitted. -/
def denseDecodeAux (b : Block) (di : Option DenseInfoData) :
    List Int → List Int → List Int → List Int → DIState → Int → Int → Int →
    Option (List Node)
  | [], _, _, _, st, _, _, _ =>
    match diStep di b st with
    | none => none
    | some _ => some []
  | did :: dids2, dlats, dlons, kvs, st, cid, clat, clon =>
    match diStep di b st, dlats, dlons with
    | none, _, _ => none
    | some none, _, _ => some []
    | some (some (info, st2)), dlat :: dlats2, dlon :: dlons2 =>
      match scanTags b [] kvs with
      | none => none
      | some (tags, kvs2) =>
        match denseDecodeAux b di dids2 dlats2 dlons2 kvs2 st2
            (wrap 64 (cid + did)) (wrap 64 (clat + dlat)) (wrap 64 (clon + dlon)) with
        | none => none
        | some ns =>
          some (⟨wrap 64 (cid + did), make_lat (wrap 64 (clat + dlat)) b,
                 make_lon (wrap 64 (clon + dlon)) b, tags, info⟩ :: ns)
    | some (some _), _, _ => some []

/-- `dense_nodes` from the source: all running totals and the metadata cursor
initialized to zero at the start of the bundle. -/
def dense_nodes (dense : DenseData) (b : Block) : Option (List Node) :=
  denseDecodeAux b dense.denseinfo dense.id dense.lat dense.lon dense.keys_vals
    ⟨0, 0, 0, 0, 0⟩ 0 0 0

/-- A primitive group: sparse nodes, dense bundle, ways, relations. -/
structure PrimitiveGroup where
  nodes : List RawNode
  dense : DenseData
  ways : List RawWay
  relations : List RawRelation
deriving DecidableEq

/-- `nodes` from the source: sparse nodes chained with dense nodes. -/
def groupNodes (g : PrimitiveGroup) (b : Block) : Option (List Node) :=
  match simple_nodes g.nodes b, dense_nodes g.dense b with
  | some a, some c => some (a ++ c)
  | _, _ => none

/-- The closed tagged union of the three feature kinds (`OsmObj`). -/
inductive OsmObj where
  | node (n : Node)
  | way (w : Way)
  | relation (r : Relation)
deriving DecidableEq

/-- `iter` from the source: nodes (sparse then dense), then ways, then
relations, each mapped into the tagged union and chained in that order. -/
def iter (g : PrimitiveGroup) (b : Block) : Option (List OsmObj) :=
  match groupNodes g b, ways g.ways b, relations g.relations b with
  | some ns, some ws, some rs =>
    some (ns.map OsmObj.node ++ ws.map OsmObj.way ++ rs.map OsmObj.relation)
  | _, _, _ => none

/-- Number of features a dense bundle yields: the shortest of the id/lat/lon
columns, further limited by the remaining length of the metadata `version`
column when a dense metadata bundle is present. -/
def diLimit (di : Option DenseInfoData) (st : DIState) (n : Nat) : Nat :=
  match di with
  | none => n
  | some d => min n (d.version.length - st.place)

/-- The signed `w`-bit range. -/
def inRange (w : Nat) (x : Int) : Prop :=
  -(2 ^ (w - 1)) ≤ x ∧ x < 2 ^ (w - 1)

instance (w : Nat) (x : Int) : Decidable (inRange w x) := by
  unfold inRange; infer_instance

/-- Interleave a list of key/value index pairs into a flat stream. -/
def interleaveKV : List (Int × Int) → List Int
  | [] => []
  | (k, v) :: rest => k :: v :: interleaveKV rest

/-- Fold a list of key/value index pairs into a tag map by resolving both
indices through the string table (callers supply resolvable indices). -/
def tagsFold (b : Block) : Tags → List (Int × Int) → Tags
  | t, [] => t
  | t, (k, v) :: rest =>
    tagsFold b
      (tagsInsert t ((make_string (usizeOfI32 k) b).getD [])
        ((make_string (usizeOfI32 v) b).getD [])) rest

/-- A block with an empty string table, granularity 100 and zero offsets. -/
def B100 : Block :=
  ⟨[], 100, 0, 0⟩

/-- A block with a five-entry string table and granularity 100. -/
def Btab : Block :=
  ⟨[[], [0x61], [0x62], [0x63], [0x64]], 100, 0, 0⟩

/-- A dense bundle whose id/lat/lon columns have one entry but whose dense
metadata bundle is present with all-empty columns. -/
def D1 : DenseData :=
  ⟨[1], [1], [1], [], some ⟨[], [], [], [], [], []⟩⟩

/-- A dense bundle with one node carrying one tag and no metadata bundle. -/
def D2 : DenseData :=
  ⟨[3], [4], [5], [1, 2, 0], none⟩

/-- A raw way with two delta node references and one tag. -/
def W9 : RawWay :=
  ⟨11, [1, 2], [1], [2], none⟩

/-- A raw relation with one way-typed member. -/
def R9 : RawRelation :=
  ⟨13, [4], [MemberType.way], [1], [], [], none⟩

/-- A group holding one sparse node, the dense bundle `D2`, the way `W9` and
the relation `R9`. -/
def G9 : PrimitiveGroup :=
  ⟨[⟨7, 1, 2, [], [], none⟩], D2, [W9], [R9]⟩

/-- A raw way whose second delta overflows the running `i64` total. -/
def Wovf : RawWay :=
  ⟨5, [2 ^ 63 - 1, 1], [], [], none⟩

/-- The node list decoded from the dense bundle `D2` over `Btab`. -/
def N2 : List Node :=
  [⟨3, 4, 5, [([0x61], [0x62])], Info.empty⟩]

theorem inRange64_iff (x : Int) :
    inRange 64 x ↔ -9223372036854775808 ≤ x ∧ x < 9223372036854775808 := by
  unfold inRange
  norm_num

theorem inRange32_iff (x : Int) :
    inRange 32 x ↔ -2147483648 ≤ x ∧ x < 2147483648 := by
  unfold inRange
  norm_num

theorem wrap64_def (x : Int) :
    wrap 64 x = (x + 9223372036854775808) % 18446744073709551616 -
      9223372036854775808 := by
  unfold wrap
  norm_num

theorem wrap32_def (x : Int) :
    wrap 32 x = (x + 2147483648) % 4294967296 - 2147483648 := by
  unfold wrap
  norm_num

theorem wrap64_eq_self {x : Int} (h : inRange 64 x) : wrap 64 x = x := by
  rw [inRange64_iff] at h
  rw [wrap64_def]
  omega

theorem wrap32_eq_self {x : Int} (h : inRange 32 x) : wrap 32 x = x := by
  rw [inRange32_iff] at h
  rw [wrap32_def]
  omega

theorem wrap64_add_left (a c : Int) : wrap 64 (wrap 64 a + c) = wrap 64 (a + c) := by
  rw [wrap64_def, wrap64_def, wrap64_def]
  omega

theorem wrap32_add_left (a c : Int) : wrap 32 (wrap 32 a + c) = wrap 32 (a + c) := by
  rw [wrap32_def, wrap32_def, wrap32_def]
  omega

/-- C2: the claim as stated fails on the code. At raw latitude `2^31` with
granularity 100 and offset 0 the spec formula `(offset + granularity*raw)/100`
yields `2^31`, but the decoder's narrowing cast wraps it to `-2^31`, so the
decoded coordinate differs from the formula. -/
theorem claim_C2_counterexample :
    make_lat (2 ^ 31) B100 = -(2 ^ 31) ∧
    Int.tdiv (B100.lat_offset + B100.granularity * 2 ^ 31) 100 = 2 ^ 31 ∧
    ((-(2 ^ 31) : Int) ≠ 2 ^ 31) := by
  decide

/-- C2 (amended): for every raw coordinate, offset and granularity such that
the 64-bit intermediate product and sum do not overflow and the quotient fits
the signed 32-bit output, the decoded decimicro-degree coordinate equals
`(offset + granularity * raw) / 100` under integer division truncating toward
zero (`Int.tdiv`), for latitude and longitude alike, including negative raw
inputs. -/
theorem claim_C2 :
    (∀ b c, inRange 64 (b.granularity * c) →
      inRange 64 (b.lat_offset + b.granularity * c) →
      inRange 32 (Int.tdiv (b.lat_offset + b.granularity * c) 100) →
      make_lat c b = Int.tdiv (b.lat_offset + b.granularity * c) 100) ∧
    (∀ b c, inRange 64 (b.granularity * c) →
      inRange 64 (b.lon_offset + b.granularity * c) →
      inRange 32 (Int.tdiv (b.lon_offset + b.granularity * c) 100) →
      make_lon c b = Int.tdiv (b.lon_offset + b.granularity * c) 100) := by
  constructor
  · intro b c h1 h2 h3
    unfold make_lat
    rw [wrap64_eq_self h1, wrap64_eq_self h2, wrap32_eq_self h3]
  · intro b c h1 h2 h3
    unfold make_lon
    rw [wrap64_eq_self h1, wrap64_eq_self h2, wrap32_eq_self h3]

/-- C2 witness: concrete in-range instances, with negative raw inputs. -/
theorem claim_C2_witness :
    make_lat (-1234) B100 = Int.tdiv (B100.lat_offset + B100.granularity * (-1234)) 100 ∧
    make_lon (-56) B100 = Int.tdiv (B100.lon_offset + B100.granularity * (-56)) 100 :=
  ⟨claim_C2.1 B100 (-1234) (by decide) (by decide) (by decide),
   claim_C2.2 B100 (-56) (by decide) (by decide) (by decide)⟩

/-- C10: whenever the 64-bit intermediate arithmetic does not overflow, the
decoded coordinate is the 64-bit truncating quotient narrowed to a signed
32-bit integer by wrapping modulo `2^32` (`wrap 32`); concretely, a quotient
of `2^31` is silently wrapped to `-2^31`, neither rejected nor saturated to
the maximum `2^31 - 1`. -/
theorem claim_C10 :
    (∀ b c, inRange 64 (b.granularity * c) →
      inRange 64 (b.lat_offset + b.granularity * c) →
      make_lat c b = wrap 32 (Int.tdiv (b.lat_offset + b.granularity * c) 100)) ∧
    (∀ b c, inRange 64 (b.granularity * c) →
      inRange 64 (b.lon_offset + b.granularity * c) →
      make_lon c b = wrap 32 (Int.tdiv (b.lon_offset + b.granularity * c) 100)) ∧
    make_lat (2 ^ 31) B100 = -(2 ^ 31) ∧
    make_lat (2 ^ 31) B100 ≠ 2 ^ 31 - 1 := by
  refine ⟨?_, ?_, by decide, by decide⟩
  · intro b c h1 h2
    unfold make_lat
    rw [wrap64_eq_self h1, wrap64_eq_self h2]
  · intro b c h1 h2
    unfold make_lon
    rw [wrap64_eq_self h1, wrap64_eq_self h2]

/-- C10 witness: concrete in-range instance of the quantified parts. -/
theorem claim_C10_witness :
    make_lat 7 B100 = wrap 32 (Int.tdiv (B100.lat_offset + B100.granularity * 7) 100) ∧
    make_lon 7 B100 = wrap 32 (Int.tdiv (B100.lon_offset + B100.granularity * 7) 100) :=
  ⟨claim_C10.1 B100 7 (by decide) (by decide),
   claim_C10.2.1 B100 7 (by decide) (by decide)⟩

/-- C7: a string-table lookup with an index at or beyond the table length is a
fatal decode error (`none`, the modelled index panic) and never substitutes a
value; every in-range index yields an owned text value. -/
theorem claim_C7 :
    (∀ b k, b.stringtable.length ≤ k → make_string k b = none) ∧
    (∀ b k, k < b.stringtable.length → ∃ s, make_string k b = some s) := by
  constructor
  · intro b k h
    unfold make_string
    rw [List.get?_eq_none.mpr h]
    rfl
  · intro b k h
    unfold make_string
    rw [List.get?_eq_get h]
    exact ⟨_, rfl⟩

/-- C7 witness: concrete out-of-range and in-range lookups. -/
theorem claim_C7_witness :
    make_string 9 Btab = none ∧ ∃ s, make_string 1 Btab = some s :=
  ⟨claim_C7.1 Btab 9 (by decide), claim_C7.2 Btab 1 (by decide)⟩

/-- C4: scanning the interleaved tag stream reads (key, value) pairs two at a
time, stops at a key index of 0 consuming exactly that terminator, inserts the
resolved pairs in order, and hands the remainder of the stream — starting one
position after the terminator — back untouched for the next entity (the dense
decoder passes exactly this remainder to the next step). -/
theorem claim_C4 (b : Block) (pairs : List (Int × Int)) (rest : List Int) (t0 : Tags)
    (h : ∀ kv ∈ pairs, kv.1 ≠ 0 ∧ (make_string (usizeOfI32 kv.1) b).isSome ∧
      (make_string (usizeOfI32 kv.2) b).isSome) :
    scanTags b t0 (interleaveKV pairs ++ (0 : Int) :: rest) =
      some (tagsFold b t0 pairs, rest) := by
  induction pairs generalizing t0 with
  | nil =>
    simp [interleaveKV, scanTags, tagsFold]
  | cons kv ps ih =>
    obtain ⟨k, v⟩ := kv
    obtain ⟨hk0, hks, hvs⟩ := h (k, v) (List.mem_cons_self _ _)
    obtain ⟨ks, hks2⟩ := Option.isSome_iff_exists.mp hks
    obtain ⟨vs, hvs2⟩ := Option.isSome_iff_exists.mp hvs
    have hrec := ih (tagsInsert t0 ks vs) (fun kv hkv => h kv (List.mem_cons_of_mem _ hkv))
    simp only [interleaveKV, List.cons_append]
    rw [scanTags, if_neg hk0, hks2]
    simp only [List.cons_append]
    rw [hvs2]
    simp only [tagsFold, hks2, hvs2, Option.getD_some]
    exact hrec

/-- C4 witness: the spec's concrete scenario — a stream beginning `3, 4, 0`
yields exactly the one pair (resolve 3, resolve 4) and the scan resumes right
after the terminator. -/
theorem claim_C4_witness :
    scanTags Btab [] (interleaveKV [((3 : Int), (4 : Int))] ++ (0 : Int) :: [9, 9]) =
      some (tagsFold Btab [] [(3, 4)], [9, 9]) :=
  claim_C4 Btab [(3, 4)] [9, 9] [] (by decide)

theorem parseMemberType_ge3 (w : Nat) (h : 3 ≤ w) : parseMemberType w = none := by
  match w, h with
  | n + 3, _ => rfl

theorem kind_memberOf (t : MemberType) (m : Int) : (memberOf t m).kind = t := by
  cases t <;> rfl

theorem mid_memberOf (t : MemberType) (m : Int) : (memberOf t m).mid = m := by
  cases t <;> rfl

/-- C6: the member-type tag is classified into exactly one of the three
enumerated kinds and paired with the delta-accumulated member id; a wire value
outside the three enumerated ones (modelled from the spec, since enum decoding
happens in the generated wire-format bindings) fails the whole decode with no
Member Reference emitted. -/
theorem claim_C6 :
    (∀ w, 3 ≤ w → parseMemberType w = none) ∧
    (∀ raw : List Nat, ∀ t ∈ raw, 3 ≤ t → raw.mapM parseMemberType = none) ∧
    (∀ t m, (memberOf t m).kind = t ∧ (memberOf t m).mid = m) ∧
    (∀ b m dm t role rest refs,
      decodeRefs b m ((dm, t, role) :: rest) = some refs →
      ∃ roleStr tail, refs = ⟨memberOf t (wrap 64 (m + dm)), roleStr⟩ :: tail) := by
  refine ⟨parseMemberType_ge3, ?_, fun t m => ⟨kind_memberOf t m, mid_memberOf t m⟩, ?_⟩
  · intro raw t ht h3
    induction raw with
    | nil => cases ht
    | cons a as ih =>
      rw [List.mapM_cons]
      rcases List.mem_cons.mp ht with rfl | hmem
      · rw [parseMemberType_ge3 _ h3]
        rfl
      · cases hpa : parseMemberType a
        · rfl
        · rw [ih hmem]
          rfl
  · intro b m dm t role rest refs h
    rw [decodeRefs] at h
    cases hs : make_string (usizeOfI32 role) b with
    | none => rw [hs] at h; exact absurd h (by simp)
    | some roleStr =>
      rw [hs] at h
      cases hr : decodeRefs b (wrap 64 (m + dm)) rest with
      | none => rw [hr] at h; exact absurd h (by simp)
      | some tail =>
        rw [hr] at h
        exact ⟨roleStr, tail, (Option.some.inj h).symm⟩

/-- C6 witness: concrete instances of each part. -/
theorem claim_C6_witness :
    parseMemberType 7 = none ∧
    [0, 1, 7].mapM parseMemberType = none ∧
    ((memberOf MemberType.way 4).kind = MemberType.way ∧ (memberOf MemberType.way 4).mid = 4) ∧
    ∃ (roleStr : Str) (tail : List Ref),
      ([⟨Member.way 4, [0x61]⟩] : List Ref) = ⟨memberOf MemberType.way (wrap 64 (0 + 4)), roleStr⟩ :: tail :=
  ⟨claim_C6.1 7 (by decide), claim_C6.2.1 [0, 1, 7] 7 (by decide) (by decide),
   claim_C6.2.2.1 MemberType.way 4,
   claim_C6.2.2.2 Btab 0 4 MemberType.way 1 [] [⟨Member.way 4, [0x61]⟩] (by decide)⟩

/-- C9: when every component decoder succeeds, the unified object stream is
exactly the concatenation of sparse point features, then dense point features,
then line features, then relation features, each wrapped in the closed tagged
union, with order within each kind preserved from the group arrays. -/
theorem claim_C9 (g : PrimitiveGroup) (b : Block) (sn dn : List Node)
    (ws2 : List Way) (rs2 : List Relation)
    (h1 : simple_nodes g.nodes b = some sn)
    (h2 : dense_nodes g.dense b = some dn)
    (h3 : ways g.ways b = some ws2)
    (h4 : relations g.relations b = some rs2) :
    iter g b = some ((sn ++ dn).map OsmObj.node ++ ws2.map OsmObj.way ++
      rs2.map OsmObj.relation) := by
  unfold iter groupNodes
  rw [h1, h2, h3, h4]

/-- C9 witness: a group with one entity of each kind decoded end to end. -/
theorem claim_C9_witness :
    iter G9 Btab = some
      (((([⟨7, 1, 2, [], Info.empty⟩] : List Node) ++
            ([⟨3, 4, 5, [([0x61], [0x62])], Info.empty⟩] : List Node)).map
          OsmObj.node) ++
        ([⟨11, [1, 3], [([0x61], [0x62])], Info.empty⟩] : List Way).map OsmObj.way ++
        ([⟨13, [⟨Member.way 4, [0x61]⟩], [], Info.empty⟩] : List Relation).map
          OsmObj.relation) :=
  claim_C9 G9 Btab [⟨7, 1, 2, [], Info.empty⟩] [⟨3, 4, 5, [([0x61], [0x62])], Info.empty⟩]
    [⟨11, [1, 3], [([0x61], [0x62])], Info.empty⟩]
    [⟨13, [⟨Member.way 4, [0x61]⟩], [], Info.empty⟩]
    (by decide) (by decide) (by decide) (by decide)

theorem denseAux_info_none {b : Block} :
    ∀ dids dlats dlons kvs st cid clat clon l,
      denseDecodeAux b none dids dlats dlons kvs st cid clat clon = some l →
      ∀ nd ∈ l, nd.info = Info.empty := by
  intro dids
  induction dids with
  | nil =>
    intro dlats dlons kvs st cid clat clon l h
    simp only [denseDecodeAux, diStep] at h
    obtain rfl := Option.some.inj h
    intro nd hnd
    cases hnd
  | cons did dids2 ih =>
    intro dlats dlons kvs st cid clat clon l h
    cases dlats with
    | nil =>
      simp only [denseDecodeAux, diStep] at h
      obtain rfl := Option.some.inj h
      intro nd hnd
      cases hnd
    | cons dlat dlats2 =>
      cases dlons with
      | nil =>
        simp only [denseDecodeAux, diStep] at h
        obtain rfl := Option.some.inj h
        intro nd hnd
        cases hnd
      | cons dlon dlons2 =>
        simp only [denseDecodeAux, diStep] at h
        split at h
        · exact absurd h (by simp)
        · split at h
          · exact absurd h (by simp)
          · obtain rfl := Option.some.inj h
            intro nd hnd
            rcases List.mem_cons.mp hnd with rfl | hmem
            · rfl
            · exact ih _ _ _ _ _ _ _ _ (by assumption) nd hmem

/-- C5: an absent metadata sub-structure decodes to the all-absent metadata
value for sparse nodes, ways and relations; with no dense metadata bundle the
dense metadata step yields the all-absent value without touching its cursor or
running totals, every dense node decodes with all-absent metadata, and the
all-absent value is distinguishable from present fields holding zero. -/
theorem claim_C5 :
    (∀ b n nd, n.info = none → decodeRawNode b n = some nd → nd.info = Info.empty) ∧
    (∀ b w W, w.info = none → decodeRawWay b w = some W → W.info = Info.empty) ∧
    (∀ b r R, r.info = none → decodeRawRelation b r = some R → R.info = Info.empty) ∧
    (∀ b st, diStep none b st = some (some (Info.empty, st))) ∧
    (∀ dd b l, dd.denseinfo = none → dense_nodes dd b = some l →
      ∀ nd ∈ l, nd.info = Info.empty) ∧
    Info.empty ≠ ⟨some 0, some 0, some 0, some 0, some [], some true⟩ := by
  refine ⟨?_, ?_, ?_, fun b st => rfl, ?_, by decide⟩
  · intro b n nd hi h
    unfold decodeRawNode at h
    cases ht : make_tags n.keys n.vals b with
    | none => rw [ht] at h; exact absurd h (by simp)
    | some tags =>
      rw [ht, hi] at h
      obtain rfl := Option.some.inj h
      rfl
  · intro b w W hi h
    unfold decodeRawWay at h
    cases ht : make_tags w.keys w.vals b with
    | none => rw [ht] at h; exact absurd h (by simp)
    | some tags =>
      rw [ht, hi] at h
      obtain rfl := Option.some.inj h
      rfl
  · intro b r R hi h
    unfold decodeRawRelation at h
    cases hm : decodeRefs b 0 (r.memids.zip (r.types.zip r.roles_sid)) with
    | none => rw [hm] at h; exact absurd h (by simp)
    | some refs =>
      rw [hm] at h
      cases ht : make_tags r.keys r.vals b with
      | none => rw [ht] at h; exact absurd h (by simp)
      | some tags =>
        rw [ht, hi] at h
        obtain rfl := Option.some.inj h
        rfl
  · intro dd b l hd h
    unfold dense_nodes at h
    rw [hd] at h
    exact denseAux_info_none _ _ _ _ _ _ _ _ _ h

theorem diStep_none_inv {d : DenseInfoData} {b : Block} {st : DIState}
    (h : diStep (some d) b st = some none) : st.place = d.version.length := by
  by_contra hne
  simp only [diStep, if_neg hne, Option.bind_eq_some] at h
  obtain ⟨ver, hver, ts, hts, cs, hcs, ud, hud, us, hus, vis, hvis, user, huser, hfin⟩ := h
  exact Option.noConfusion (Option.some.inj hfin)

theorem diStep_some_inv {d : DenseInfoData} {b : Block} {st : DIState} {p : Info × DIState}
    (h : diStep (some d) b st = some (some p)) :
    st.place < d.version.length ∧ p.2.place = st.place + 1 ∧
    ∃ ver ts cs ud us vis user,
      d.version.get? st.place = some ver ∧ d.timestamp.get? st.place = some ts ∧
      d.changeset.get? st.place = some cs ∧ d.uid.get? st.place = some ud ∧
      d.user_sid.get? st.place = some us ∧ d.visible.get? st.place = some vis ∧
      make_string (usizeOfI32 (wrap 32 (st.cur_user_sid + us))) b = some user ∧
      p = (⟨some ver, some (wrap 64 (st.cur_timestamp + ts)),
            some (wrap 64 (st.cur_changeset + cs)),
            some (wrap 32 (st.cur_uid + ud)), some user, some vis⟩,
           ⟨wrap 64 (st.cur_timestamp + ts), wrap 64 (st.cur_changeset + cs),
            wrap 32 (st.cur_uid + ud), wrap 32 (st.cur_user_sid + us), st.place + 1⟩) := by
  have hne : st.place ≠ d.version.length := by
    intro he
    rw [diStep, if_pos he] at h
    exact Option.noConfusion (Option.some.inj h)
  simp only [diStep, if_neg hne, Option.bind_eq_some] at h
  obtain ⟨ver, hver, ts, hts, cs, hcs, ud, hud, us, hus, vis, hvis, user, huser, hfin⟩ := h
  obtain rfl := Option.some.inj (Option.some.inj hfin)
  have hlt : st.place < d.version.length := by
    rcases Nat.lt_or_ge st.place d.version.length with hlt | hge
    · exact hlt
    · rw [List.get?_eq_none.mpr hge] at hver
      exact Option.noConfusion hver
  exact ⟨hlt, rfl, ver, ts, cs, ud, us, vis, user, hver, hts, hcs, hud, hus, hvis, huser, rfl⟩

theorem diLimit_zero (di : Option DenseInfoData) (st : DIState) : diLimit di st 0 = 0 := by
  cases di <;> simp [diLimit]

theorem denseAux_length {b : Block} {di : Option DenseInfoData} :
    ∀ dids dlats dlons kvs st cid clat clon l,
      denseDecodeAux b di dids dlats dlons kvs st cid clat clon = some l →
      l.length = diLimit di st (min dids.length (min dlats.length dlons.length)) := by
  intro dids
  induction dids with
  | nil =>
    intro dlats dlons kvs st cid clat clon l h
    cases hd : diStep di b st with
    | none => simp [denseDecodeAux, hd] at h
    | some r =>
      simp only [denseDecodeAux, hd, Option.some.injEq] at h
      subst h
      simp [diLimit_zero]
  | cons did dids2 ih =>
    intro dlats dlons kvs st cid clat clon l h
    cases hd : diStep di b st with
    | none => cases dlats <;> cases dlons <;> simp [denseDecodeAux, hd] at h
    | some r =>
      cases r with
      | none =>
        have hp : ∃ d, di = some d := by
          cases di with
          | none => exact absurd hd (by simp [diStep])
          | some d => exact ⟨d, rfl⟩
        obtain ⟨d, rfl⟩ := hp
        have hpl := diStep_none_inv hd
        cases dlats <;> cases dlons <;>
          (simp only [denseDecodeAux, hd, Option.some.injEq] at h; subst h;
            simp [diLimit, hpl])
      | some p =>
        obtain ⟨info, st2⟩ := p
        cases dlats with
        | nil =>
          simp only [denseDecodeAux, hd, Option.some.injEq] at h
          subst h
          simp [diLimit_zero]
        | cons dlat dlats2 =>
          cases dlons with
          | nil =>
            simp only [denseDecodeAux, hd, Option.some.injEq] at h
            subst h
            simp [diLimit_zero]
          | cons dlon dlons2 =>
            simp only [denseDecodeAux, hd] at h
            split at h
            · exact absurd h (by simp)
            · split at h
              · exact absurd h (by simp)
              · obtain rfl := Option.some.inj h
                have hlen := ih _ _ _ _ _ _ _ _ (by assumption)
                simp only [List.length_cons]
                cases di with
                | none =>
                  simp only [diLimit] at hlen ⊢
                  omega
                | some d =>
                  obtain ⟨hlt, hplace, _⟩ := diStep_some_inv hd
                  simp only [diLimit] at hlen ⊢
                  rw [hplace] at hlen
                  omega

/-- C1: the claim as stated fails on the code. In a bundle whose id/lat/lon
columns each hold one entry but whose dense metadata bundle is present with an
empty `version` column, the decoder emits zero features, not one: the dense
metadata iterator participates in the exhaustion decision. -/
theorem claim_C1_counterexample :
    dense_nodes D1 Btab = some [] ∧ D1.id.length = 1 ∧ D1.lat.length = 1 ∧
    D1.lon.length = 1 ∧ (0 : Nat) ≠ 1 := by
  decide

theorem deltaDecodeFrom_get :
    ∀ (ds : List Int) (n : Int) (i : Nat), i < ds.length →
      (∀ j, j ≤ i → inRange 64 (n + (ds.take (j + 1)).sum)) →
      (deltaDecodeFrom n ds).get? i = some (n + (ds.take (i + 1)).sum) := by
  intro ds
  induction ds with
  | nil => intro n i hi _; exact absurd hi (by simp)
  | cons d ds2 ih =>
    intro n i hi hr
    have h0 : inRange 64 (n + d) := by
      have := hr 0 (Nat.zero_le _)
      simpa using this
    rw [deltaDecodeFrom, wrap64_eq_self h0]
    cases i with
    | zero => simp
    | succ i2 =>
      rw [List.get?_cons_succ]
      have hi2 : i2 < ds2.length := by simpa using hi
      have hr2 : ∀ j, j ≤ i2 → inRange 64 (n + d + (ds2.take (j + 1)).sum) := by
        intro j hj
        have := hr (j + 1) (by omega)
        simpa [add_assoc] using this
      rw [ih (n + d) i2 hi2 hr2]
      simp [add_assoc]

theorem ways_nodes_eq {b : Block} {w : RawWay} {W : Way}
    (h : decodeRawWay b w = some W) : W.nodes = deltaDecode w.refs := by
  unfold decodeRawWay at h
  cases ht : make_tags w.keys w.vals b with
  | none => rw [ht] at h; exact absurd h (by simp)
  | some tags =>
    rw [ht] at h
    cases hi : maybeInfo w.info b with
    | none => rw [hi] at h; exact absurd h (by simp)
    | some info =>
      rw [hi] at h
      obtain rfl := Option.some.inj h
      rfl

theorem decodeRefs_mids {b : Block} :
    ∀ (triples : List (Int × MemberType × Int)) (m : Int) (refs : List Ref),
      decodeRefs b m triples = some refs →
      refs.map (fun rf => rf.member.mid) = deltaDecodeFrom m (triples.map (fun x => x.1)) := by
  intro triples
  induction triples with
  | nil =>
    intro m refs h
    obtain rfl := Option.some.inj h
    rfl
  | cons x rest ih =>
    obtain ⟨dm, t, role⟩ := x
    intro m refs h
    rw [decodeRefs] at h
    cases hs : make_string (usizeOfI32 role) b with
    | none => rw [hs] at h; exact absurd h (by simp)
    | some roleStr =>
      rw [hs] at h
      cases hr : decodeRefs b (wrap 64 (m + dm)) rest with
      | none => rw [hr] at h; exact absurd h (by simp)
      | some tail =>
        rw [hr] at h
        obtain rfl := Option.some.inj h
        simp only [List.map_cons, deltaDecodeFrom]
        rw [ih (wrap 64 (m + dm)) tail hr]
        simp [mid_memberOf]

theorem denseAux_columns {b : Block} {di : Option DenseInfoData} :
    ∀ dids dlats dlons kvs st cid clat clon l,
      denseDecodeAux b di dids dlats dlons kvs st cid clat clon = some l →
      l.map Node.id = (deltaDecodeFrom cid dids).take l.length ∧
      l.map Node.decimicro_lat =
        ((deltaDecodeFrom clat dlats).take l.length).map (fun x => make_lat x b) ∧
      l.map Node.decimicro_lon =
        ((deltaDecodeFrom clon dlons).take l.length).map (fun x => make_lon x b) := by
  intro dids
  induction dids with
  | nil =>
    intro dlats dlons kvs st cid clat clon l h
    cases hd : diStep di b st with
    | none => simp [denseDecodeAux, hd] at h
    | some r =>
      simp only [denseDecodeAux, hd, Option.some.injEq] at h
      subst h
      simp
  | cons did dids2 ih =>
    intro dlats dlons kvs st cid clat clon l h
    cases hd : diStep di b st with
    | none => cases dlats <;> cases dlons <;> simp [denseDecodeAux, hd] at h
    | some r =>
      cases r with
      | none =>
        cases dlats <;> cases dlons <;>
          (simp only [denseDecodeAux, hd, Option.some.injEq] at h; subst h; simp)
      | some p =>
        obtain ⟨info, st2⟩ := p
        cases dlats with
        | nil =>
          simp only [denseDecodeAux, hd, Option.some.injEq] at h
          subst h
          simp
        | cons dlat dlats2 =>
          cases dlons with
          | nil =>
            simp only [denseDecodeAux, hd, Option.some.injEq] at h
            subst h
            simp
          | cons dlon dlons2 =>
            simp only [denseDecodeAux, hd] at h
            split at h
            · exact absurd h (by simp)
            · split at h
              · exact absurd h (by simp)
              · obtain rfl := Option.some.inj h
                obtain ⟨h1, h2, h3⟩ := ih _ _ _ _ _ _ _ _ (by assumption)
                refine ⟨?_, ?_, ?_⟩ <;>
                  simp [deltaDecodeFrom, h1, h2, h3]

/-- C1 (amended): a dense bundle decodes to exactly N point features in column
order — the emitted ids and the raw inputs of the emitted coordinates are the
delta-decoded id/lat/lon columns, in order — where N is the length of the
shortest of the id/lat/lon columns when no dense metadata bundle is present,
and is additionally capped by the metadata `version` column length when one is
present (`diLimit`); the interleaved tag stream never causes fewer features to
be emitted. -/
theorem claim_C1 (dense : DenseData) (b : Block) (l : List Node)
    (h : dense_nodes dense b = some l) :
    l.length = diLimit dense.denseinfo ⟨0, 0, 0, 0, 0⟩
      (min dense.id.length (min dense.lat.length dense.lon.length)) ∧
    l.map Node.id = (deltaDecode dense.id).take l.length ∧
    l.map Node.decimicro_lat =
      ((deltaDecode dense.lat).take l.length).map (fun x => make_lat x b) ∧
    l.map Node.decimicro_lon =
      ((deltaDecode dense.lon).take l.length).map (fun x => make_lon x b) :=
  ⟨denseAux_length dense.id dense.lat dense.lon dense.keys_vals ⟨0, 0, 0, 0, 0⟩ 0 0 0 l h,
   denseAux_columns dense.id dense.lat dense.lon dense.keys_vals ⟨0, 0, 0, 0, 0⟩ 0 0 0 l h⟩

/-- C1 witness: a one-node bundle with no metadata bundle emits exactly one
feature, whose id and coordinates follow the columns. -/
theorem claim_C1_witness :
    N2.length = diLimit D2.denseinfo ⟨0, 0, 0, 0, 0⟩
      (min D2.id.length (min D2.lat.length D2.lon.length)) ∧
    N2.map Node.id = (deltaDecode D2.id).take N2.length ∧
    N2.map Node.decimicro_lat =
      ((deltaDecode D2.lat).take N2.length).map (fun x => make_lat x Btab) ∧
    N2.map Node.decimicro_lon =
      ((deltaDecode D2.lon).take N2.length).map (fun x => make_lon x Btab) :=
  claim_C1 D2 Btab N2 (by decide)

theorem drop_cons_of_get? {α : Type} {l : List α} {n : Nat} {a : α}
    (h : l.get? n = some a) : l.drop n = a :: l.drop (n + 1) := by
  induction l generalizing n with
  | nil => simp at h
  | cons x xs ih =>
    cases n with
    | zero =>
      simp only [List.get?_cons_zero, Option.some.injEq] at h
      subst h
      simp
    | succ n2 =>
      simp only [List.get?_cons_succ] at h
      simp only [List.drop_succ_cons]
      exact ih h

theorem denseAux_denseinfo {b : Block} {d : DenseInfoData} :
    ∀ dids dlats dlons kvs st cid clat clon l,
      denseDecodeAux b (some d) dids dlats dlons kvs st cid clat clon = some l →
      ∀ i nd, l.get? i = some nd →
        nd.info.timestamp =
          some (wrap 64 (st.cur_timestamp + ((d.timestamp.drop st.place).take (i + 1)).sum)) ∧
        nd.info.changeset =
          some (wrap 64 (st.cur_changeset + ((d.changeset.drop st.place).take (i + 1)).sum)) ∧
        nd.info.uid =
          some (wrap 32 (st.cur_uid + ((d.uid.drop st.place).take (i + 1)).sum)) ∧
        nd.info.user =
          make_string (usizeOfI32 (wrap 32 (st.cur_user_sid +
            ((d.user_sid.drop st.place).take (i + 1)).sum))) b := by
  intro dids
  induction dids with
  | nil =>
    intro dlats dlons kvs st cid clat clon l h i nd hnd
    cases hd : diStep (some d) b st with
    | none => simp [denseDecodeAux, hd] at h
    | some r =>
      simp only [denseDecodeAux, hd, Option.some.injEq] at h
      subst h
      simp at hnd
  | cons did dids2 ih =>
    intro dlats dlons kvs st cid clat clon l h i nd hnd
    cases hd : diStep (some d) b st with
    | none => cases dlats <;> cases dlons <;> simp [denseDecodeAux, hd] at h
    | some r =>
      cases r with
      | none =>
        cases dlats <;> cases dlons <;>
          (simp only [denseDecodeAux, hd, Option.some.injEq] at h; subst h; simp at hnd)
      | some p =>
        obtain ⟨info, st2⟩ := p
        cases dlats with
        | nil =>
          simp only [denseDecodeAux, hd, Option.some.injEq] at h
          subst h
          simp at hnd
        | cons dlat dlats2 =>
          cases dlons with
          | nil =>
            simp only [denseDecodeAux, hd, Option.some.injEq] at h
            subst h
            simp at hnd
          | cons dlon dlons2 =>
            simp only [denseDecodeAux, hd] at h
            split at h
            · exact absurd h (by simp)
            · split at h
              · exact absurd h (by simp)
              · obtain rfl := Option.some.inj h
                obtain ⟨hlt, hplc, ver, ts, cs, ud, us, vis, user, hver, hts, hcs, hud,
                  hus, hvis, huser, hp⟩ := diStep_some_inv hd
                injection hp with hinfo hst2
                subst hinfo
                subst hst2
                cases i with
                | zero =>
                  simp only [List.get?_cons_zero, Option.some.injEq] at hnd
                  subst hnd
                  refine ⟨?_, ?_, ?_, ?_⟩
                  · rw [drop_cons_of_get? hts]
                    simp
                  · rw [drop_cons_of_get? hcs]
                    simp
                  · rw [drop_cons_of_get? hud]
                    simp
                  · rw [drop_cons_of_get? hus]
                    simp [huser]
                | succ i2 =>
                  simp only [List.get?_cons_succ] at hnd
                  obtain ⟨ht1, ht2, ht3, ht4⟩ := ih _ _ _ _ _ _ _ _ (by assumption) i2 nd hnd
                  refine ⟨?_, ?_, ?_, ?_⟩
                  · rw [ht1, drop_cons_of_get? hts]
                    simp [wrap64_add_left, add_assoc]
                  · rw [ht2, drop_cons_of_get? hcs]
                    simp [wrap64_add_left, add_assoc]
                  · rw [ht3, drop_cons_of_get? hud]
                    simp [wrap32_add_left, add_assoc]
                  · rw [ht4, drop_cons_of_get? hus]
                    simp [wrap32_add_left, add_assoc]

/-- C3: the claim as stated fails on the code. The running totals are machine
integers: decoding the way reference deltas `[2^63 - 1, 1]` wraps the second
absolute value to `-2^63` instead of the exact prefix sum `2^63`. -/
theorem claim_C3_counterexample :
    deltaDecode [2 ^ 63 - 1, 1] = [2 ^ 63 - 1, -(2 ^ 63)] ∧
    decodeRawWay B100 Wovf = some ⟨5, [2 ^ 63 - 1, -(2 ^ 63)], [], Info.empty⟩ ∧
    ((2 ^ 63 - 1 : Int) + 1 ≠ -(2 ^ 63)) := by
  decide

/-- C3 (amended): every delta-decoded value is the prefix sum of the raw
deltas reduced to the wire integer width (64-bit wrap for way references,
member ids, dense id/lat/lon and timestamp/changeset columns; 32-bit wrap for
the dense uid and user-string-index columns, the latter resolved through the
string table), with the running total reset to zero per way, per relation, and
per dense bundle; whenever every running prefix sum fits the width, the
decoded value equals the exact prefix sum. -/
theorem claim_C3 :
    (∀ (ds : List Int) (i : Nat), i < ds.length →
      (∀ j, j ≤ i → inRange 64 ((ds.take (j + 1)).sum)) →
      (deltaDecode ds).get? i = some ((ds.take (i + 1)).sum)) ∧
    (∀ b w W, decodeRawWay b w = some W → W.nodes = deltaDecode w.refs) ∧
    (∀ b (triples : List (Int × MemberType × Int)) m refs,
      decodeRefs b m triples = some refs →
      refs.map (fun rf => rf.member.mid) =
        deltaDecodeFrom m (triples.map (fun x => x.1))) ∧
    (∀ dense b l, dense_nodes dense b = some l →
      l.map Node.id = (deltaDecode dense.id).take l.length ∧
      l.map Node.decimicro_lat =
        ((deltaDecode dense.lat).take l.length).map (fun x => make_lat x b) ∧
      l.map Node.decimicro_lon =
        ((deltaDecode dense.lon).take l.length).map (fun x => make_lon x b)) ∧
    (∀ dense b d l, dense.denseinfo = some d → dense_nodes dense b = some l →
      ∀ i nd, l.get? i = some nd →
        nd.info.timestamp = some (wrap 64 ((d.timestamp.take (i + 1)).sum)) ∧
        nd.info.changeset = some (wrap 64 ((d.changeset.take (i + 1)).sum)) ∧
        nd.info.uid = some (wrap 32 ((d.uid.take (i + 1)).sum)) ∧
        nd.info.user =
          make_string (usizeOfI32 (wrap 32 ((d.user_sid.take (i + 1)).sum))) b) := by
  refine ⟨?_, fun b w W h => ways_nodes_eq h, fun b triples m refs h => decodeRefs_mids triples m refs h, ?_, ?_⟩
  · intro ds i hi hr
    have := deltaDecodeFrom_get ds 0 i hi (by simpa using hr)
    simpa [deltaDecode] using this
  · intro dense b l h
    exact denseAux_columns dense.id dense.lat dense.lon dense.keys_vals ⟨0, 0, 0, 0, 0⟩ 0 0 0 l h
  · intro dense b d l hd h i nd hnd
    unfold dense_nodes at h
    rw [hd] at h
    have := denseAux_denseinfo dense.id dense.lat dense.lon dense.keys_vals
      ⟨0, 0, 0, 0, 0⟩ 0 0 0 l h i nd hnd
    simpa using this

/-- C3 witness: the spec's concrete scenario `[10, 5, -3] → [10, 15, 12]` via
the quantified in-range part. -/
theorem claim_C3_witness :
    (deltaDecode [(10 : Int), 5, -3]).get? 2 = some (([(10 : Int), 5, -3].take 3).sum) :=
  claim_C3.1 [10, 5, -3] 2 (by decide) (by decide)

theorem dec2 (v : Nat) (rest : List Nat) (h1 : 0x80 ≤ v) (h2 : v < 0x800) :
    utf8DecodeLossy ((0xC0 + v / 64) :: (0x80 + v % 64) :: rest) = v :: utf8DecodeLossy rest := by
  rw [utf8DecodeLossy.eq_def]
  dsimp only
  rw [if_neg (by omega), if_neg (by omega), if_pos (by omega)]
  rw [if_pos (by omega : 0x80 ≤ 0x80 + v % 64 ∧ 0x80 + v % 64 < 0xC0)]
  rw [show (0xC0 + v / 64 - 0xC0) * 64 + (0x80 + v % 64 - 0x80) = v from by omega]

theorem dec3 (v : Nat) (rest : List Nat) (h1 : 0x800 ≤ v) (h2 : v < 0x10000)
    (h3 : v < 0xD800 ∨ 0xE000 ≤ v) :
    utf8DecodeLossy ((0xE0 + v / 4096) :: (0x80 + v / 64 % 64) :: (0x80 + v % 64) :: rest) =
      v :: utf8DecodeLossy rest := by
  have hb1 : validB1 (0xE0 + v / 4096) (0x80 + v / 64 % 64) := by
    unfold validB1
    split_ifs with he1 he2 <;> omega
  rw [utf8DecodeLossy.eq_def]
  dsimp only
  rw [if_neg (by omega), if_neg (by omega), if_neg (by omega), if_pos (by omega)]
  rw [if_pos hb1]
  rw [if_pos (by omega : 0x80 ≤ 0x80 + v % 64 ∧ 0x80 + v % 64 < 0xC0)]
  rw [show (0xE0 + v / 4096 - 0xE0) * 4096 + (0x80 + v / 64 % 64 - 0x80) * 64 +
      (0x80 + v % 64 - 0x80) = v from by omega]

theorem dec4 (v : Nat) (rest : List Nat) (h1 : 0x10000 ≤ v) (h2 : v < 0x110000) :
    utf8DecodeLossy ((0xF0 + v / 262144) :: (0x80 + v / 4096 % 64) ::
      (0x80 + v / 64 % 64) :: (0x80 + v % 64) :: rest) = v :: utf8DecodeLossy rest := by
  have hb1 : validB1 (0xF0 + v / 262144) (0x80 + v / 4096 % 64) := by
    unfold validB1
    split_ifs with he1 he2 he3 he4 <;> omega
  rw [utf8DecodeLossy.eq_def]
  dsimp only
  rw [if_neg (by omega), if_neg (by omega), if_neg (by omega), if_neg (by omega),
    if_pos (by omega)]
  rw [if_pos hb1]
  rw [if_pos (by omega : 0x80 ≤ 0x80 + v / 64 % 64 ∧ 0x80 + v / 64 % 64 < 0xC0)]
  rw [if_pos (by omega : 0x80 ≤ 0x80 + v % 64 ∧ 0x80 + v % 64 < 0xC0)]
  rw [show (0xF0 + v / 262144 - 0xF0) * 262144 + (0x80 + v / 4096 % 64 - 0x80) * 4096 +
      (0x80 + v / 64 % 64 - 0x80) * 64 + (0x80 + v % 64 - 0x80) = v from by omega]

theorem utf8_decode_encode_char (v : Nat) (hv : ValidScalar v) (rest : List Nat) :
    utf8DecodeLossy (utf8EncodeChar v ++ rest) = v :: utf8DecodeLossy rest := by
  unfold ValidScalar at hv
  by_cases h1 : v < 0x80
  · rw [utf8EncodeChar, if_pos h1]
    simp only [List.cons_append, List.nil_append]
    rw [utf8DecodeLossy.eq_def]
    dsimp only
    rw [if_pos h1]
  · by_cases h2 : v < 0x800
    · rw [utf8EncodeChar, if_neg h1, if_pos h2]
      simp only [List.cons_append, List.nil_append]
      exact dec2 v rest (by omega) h2
    · by_cases h3 : v < 0x10000
      · rw [utf8EncodeChar, if_neg h1, if_neg h2, if_pos h3]
        simp only [List.cons_append, List.nil_append]
        exact dec3 v rest (by omega) h3 (by omega)
      · rw [utf8EncodeChar, if_neg h1, if_neg h2, if_neg h3]
        simp only [List.cons_append, List.nil_append]
        exact dec4 v rest (by omega) (by omega)

theorem utf8_decode_encode (vs : List Nat) (hv : ∀ v ∈ vs, ValidScalar v) :
    utf8DecodeLossy (utf8Encode vs) = vs := by
  induction vs with
  | nil => rfl
  | cons v vs2 ih =>
    have he : utf8Encode (v :: vs2) = utf8EncodeChar v ++ utf8Encode vs2 := rfl
    rw [he, utf8_decode_encode_char v (hv v (List.mem_cons_self _ _)) _]
    rw [ih (fun x hx => hv x (List.mem_cons_of_mem _ hx))]

/-- C8: resolving an in-range string-table entry never aborts — an entry that
is the UTF-8 encoding of a scalar-value sequence is returned exactly as that
sequence, and an entry with invalid byte runs is returned with U+FFFD
substituted for each invalid run (concretely: a stray `0xFF` byte, and a
truncated-sequence byte, each become one replacement character). -/
theorem claim_C8 :
    (∀ b k bytes vs, b.stringtable.get? k = some bytes → bytes = utf8Encode vs →
      (∀ v ∈ vs, ValidScalar v) → make_string k b = some vs) ∧
    make_string 0 ⟨[[0xFF, 0x41]], 100, 0, 0⟩ = some [0xFFFD, 0x41] ∧
    make_string 0 ⟨[[0x61, 0xC3, 0xA9]], 100, 0, 0⟩ = some [0x61, 0xE9] ∧
    make_string 0 ⟨[[0xE0, 0x80, 0x41]], 100, 0, 0⟩ = some [0xFFFD, 0xFFFD, 0x41] := by
  refine ⟨?_, by decide, by decide, by decide⟩
  intro b k bytes vs hget henc hval
  unfold make_string
  rw [hget]
  show some (utf8DecodeLossy bytes) = some vs
  rw [henc, utf8_decode_encode vs hval]

/-- C8 witness: an in-range entry holding valid multi-byte UTF-8 comes back
unchanged as its scalar values. -/
theorem claim_C8_witness :
    make_string 3 Btab = some [0x63] :=
  claim_C8.1 Btab 3 [0x63] [0x63] (by decide) (by decide) (by decide)

/-- C5 witness: concrete instances — a sparse node, a way, a relation and a
dense bundle, all without metadata sub-structures. -/
theorem claim_C5_witness :
    ((⟨7, 1, 2, [], Info.empty⟩ : Node).info = Info.empty) ∧
    ((⟨11, [1, 3], [([0x61], [0x62])], Info.empty⟩ : Way).info = Info.empty) ∧
    ((⟨13, [⟨Member.way 4, [0x61]⟩], [], Info.empty⟩ : Relation).info = Info.empty) ∧
    diStep none Btab ⟨0, 0, 0, 0, 0⟩ = some (some (Info.empty, ⟨0, 0, 0, 0, 0⟩)) ∧
    ((⟨3, 4, 5, [([0x61], [0x62])], Info.empty⟩ : Node).info = Info.empty) :=
  ⟨claim_C5.1 Btab ⟨7, 1, 2, [], [], none⟩ _ rfl (by decide),
   claim_C5.2.1 Btab W9 _ rfl (by decide),
   claim_C5.2.2.1 Btab R9 _ rfl (by decide),
   claim_C5.2.2.2.1 Btab ⟨0, 0, 0, 0, 0⟩,
   claim_C5.2.2.2.2.1 D2 Btab [⟨3, 4, 5, [([0x61], [0x62])], Info.empty⟩] rfl (by decide)
     ⟨3, 4, 5, [([0x61], [0x62])], Info.empty⟩ (by decide)⟩

end Osm
